import Mathlib

/-!
Verification development for the student-submission evaluation system.

Part 1 embeds the archive extractor (`src/parsers/zip_handler.py`):
Moodle folder-name matching, entry skipping, and the student → files
dictionary built during extraction.
-/

set_option maxHeartbeats 1000000

namespace ZipHandler

/-- One archive entry: the full path stored in the archive together with the
raw file content (content type kept abstract). A trailing `/` in `filename`
marks a directory entry, as in `zipfile.ZipInfo.is_dir`. -/
structure ZipEntry (β : Type) where
  filename : String
  content : β

/-- Substring test on character lists (model of Python's `in` on `str`). -/
def containsSub (needle : List Char) : List Char → Bool
  | [] => needle.isPrefixOf []
  | c :: cs => needle.isPrefixOf (c :: cs) || containsSub needle cs

/-- Split a character list on `/`. -/
def splitOnSlash : List Char → List (List Char)
  | [] => [[]]
  | c :: cs =>
    match splitOnSlash cs, c == '/' with
    | r, true => [] :: r
    | s :: rest, false => (c :: s) :: rest
    | [], false => [[c]]

/-- Strip whitespace from both ends (model of Python's `str.strip()`). -/
def trimChars (cs : List Char) : List Char :=
  ((cs.dropWhile Char.isWhitespace).reverse.dropWhile Char.isWhitespace).reverse

/-- Path segments as produced by `PurePosixPath(...).parts` for relative
paths: split on `/`, dropping empty segments and `.` segments. -/
def splitPathParts (s : String) : List String :=
  ((splitOnSlash s.toList).map String.mk).filter (fun p => p != "" && p != ".")

/-- `PurePosixPath(...).name`: the last path segment (or `""`). -/
def pathName (s : String) : String :=
  (splitPathParts s).getLastD ""

/-- After the candidate name, the regex `_\d+_assignsubmission_` must match:
a literal `_`, a nonempty digit run, then the literal `_assignsubmission_`.
Since `_` is not a digit, backtracking inside `\d+` adds nothing: the digit
run is exactly the maximal digit prefix. -/
def moodleSuffixOk (cs : List Char) : Bool :=
  match cs with
  | [] => false
  | c :: rest =>
    c == '_' &&
      !(rest.takeWhile Char.isDigit).isEmpty &&
      "_assignsubmission_".toList.isPrefixOf (rest.dropWhile Char.isDigit)

/-- Non-greedy scan of `^(.+?)_\d+_assignsubmission_`: try every split
position from the left, shortest (nonempty) captured name first. -/
def moodleScan (pre : List Char) : List Char → Option (List Char)
  | [] => none
  | c :: cs =>
    if moodleSuffixOk cs then some (pre ++ [c]) else moodleScan (pre ++ [c]) cs

/-- `extract_student_name_from_moodle_folder`: match the Moodle pattern
`^(.+?)_\d+_assignsubmission_` against the folder name; on success return
the captured group stripped of surrounding whitespace. -/
def extract_student_name_from_moodle_folder (folder_name : String) : Option String :=
  match moodleScan [] folder_name.toList with
  | some name => some (String.mk (trimChars name))
  | none => none

/-- Skip rule of `extract_student_submissions`: directory entries (name ends
in `/`), paths containing `__MACOSX`, hidden leaf files (leaf starts with
`.`), and entries with fewer than two path segments. -/
def entrySkipped (filename : String) : Bool :=
  filename.toList.getLast? == some '/' ||
  containsSub "__MACOSX".toList filename.toList ||
  (pathName filename).toList.head? == some '.' ||
  (splitPathParts filename).length < 2

/-- Student-name derivation in `extract_student_submissions`: scan the path
segments excluding the filename, shallowest first; the first Moodle match
wins, otherwise fall back to the first segment. -/
def deriveStudentName (filename : String) : String :=
  let parts := splitPathParts filename
  match parts.dropLast.findSome? extract_student_name_from_moodle_folder with
  | some n => n
  | none => parts.headD ""

/-- Python-dict insert-or-append: `students[name].append(file)` with
insertion-order keys, creating the key on first use. -/
def dictAppend (m : List (String × List (String × β))) (k : String) (v : String × β) :
    List (String × List (String × β)) :=
  match m with
  | [] => [(k, [v])]
  | (k', vs) :: rest =>
    if k' == k then (k', vs ++ [v]) :: rest else (k', vs) :: dictAppend rest k v

/-- Lookup in the insertion-ordered dictionary. -/
def dictLookup (m : List (String × α)) (k : String) : Option α :=
  match m with
  | [] => none
  | (k', v) :: rest => if k' == k then some v else dictLookup rest k

/-- Loop body of `extract_student_submissions` over the entry list,
threading the students dictionary. -/
def extractAux (m : List (String × List (String × β))) :
    List (ZipEntry β) → List (String × List (String × β))
  | [] => m
  | e :: es =>
    if entrySkipped e.filename then extractAux m es
    else extractAux (dictAppend m (deriveStudentName e.filename) (pathName e.filename, e.content)) es

/-- `extract_student_submissions` on the archive's entry list: the mapping
from derived student names to their `(leaf filename, content)` lists. -/
def extract_student_submissions (entries : List (ZipEntry β)) :
    List (String × List (String × β)) :=
  extractAux [] entries

/-- Entries that survive the skip rule. -/
def keptEntries (entries : List (ZipEntry β)) : List (ZipEntry β) :=
  entries.filter (fun e => !entrySkipped e.filename)

/-- The files attributed to student `n`: kept entries deriving `n`, in
archive traversal order, as `(leaf filename, content)` pairs. -/
def filesFor (n : String) : List (ZipEntry β) → List (String × β)
  | [] => []
  | e :: es =>
    if !entrySkipped e.filename && deriveStudentName e.filename == n then
      (pathName e.filename, e.content) :: filesFor n es
    else filesFor n es

/-- Does some kept entry derive student `n`? -/
def hasStudent (n : String) : List (ZipEntry β) → Bool
  | [] => false
  | e :: es =>
    (!entrySkipped e.filename && deriveStudentName e.filename == n) || hasStudent n es

/-- The spec's derivation rule stated in its own words: walk the path
segments excluding the filename from the shallowest level down; the first
segment matching `<name>_<digits>_assignsubmission...` wins and its captured
name, trimmed of surrounding whitespace, becomes the student name; if no
segment matches, the first (top-level) path segment is used. -/
def derivedNameSpec (filename : String) : String :=
  let segments := splitPathParts filename
  match segments.dropLast.find?
      (fun seg => (extract_student_name_from_moodle_folder seg).isSome) with
  | some seg => (extract_student_name_from_moodle_folder seg).getD ""
  | none => segments.headD ""

theorem dictLookup_dictAppend_eq (m : List (String × List (String × β))) (k : String)
    (v : String × β) :
    dictLookup (dictAppend m k v) k = some ((dictLookup m k).getD [] ++ [v]) := by
  induction m with
  | nil => simp [dictAppend, dictLookup]
  | cons hd tl ih =>
    obtain ⟨k', vs⟩ := hd
    by_cases h : k' = k <;> simp [dictAppend, dictLookup, h, ih]

theorem dictLookup_dictAppend_ne (m : List (String × List (String × β))) (k : String)
    (v : String × β) (n : String) (h : ¬ k = n) :
    dictLookup (dictAppend m k v) n = dictLookup m n := by
  induction m with
  | nil => simp [dictAppend, dictLookup, h]
  | cons hd tl ih =>
    obtain ⟨k', vs⟩ := hd
    by_cases h' : k' = k
    · subst h'; simp [dictAppend, dictLookup, h]
    · simp [dictAppend, dictLookup, h', ih]

theorem dictLookup_extractAux (es : List (ZipEntry β)) : ∀ (m : List (String × List (String × β)))
    (n : String),
    dictLookup (extractAux m es) n =
      match dictLookup m n with
      | some fs => some (fs ++ filesFor n es)
      | none => if hasStudent n es then some (filesFor n es) else none := by
  induction es with
  | nil =>
    intro m n
    cases h : dictLookup m n <;> simp [extractAux, filesFor, hasStudent, h]
  | cons e es ih =>
    intro m n
    by_cases hskip : entrySkipped e.filename
    · rw [extractAux, if_pos hskip, ih]
      cases h : dictLookup m n <;> simp [filesFor, hasStudent, hskip, h]
    · rw [extractAux, if_neg hskip, ih]
      by_cases hn : deriveStudentName e.filename = n
      · rw [hn, dictLookup_dictAppend_eq]
        cases h : dictLookup m n <;>
          simp [filesFor, hasStudent, hskip, hn, h]
      · rw [dictLookup_dictAppend_ne _ _ _ _ hn]
        cases h : dictLookup m n <;>
          simp [filesFor, hasStudent, hskip, hn, h]

theorem dictLookup_extract (entries : List (ZipEntry β)) (n : String) :
    dictLookup (extract_student_submissions entries) n =
      if hasStudent n entries then some (filesFor n entries) else none := by
  rw [extract_student_submissions, dictLookup_extractAux]
  simp [dictLookup]

theorem extractAux_keptEntries (es : List (ZipEntry β)) :
    ∀ m, extractAux m (es.filter (fun e => !entrySkipped e.filename)) = extractAux m es := by
  induction es with
  | nil => intro m; simp
  | cons e es ih =>
    intro m
    by_cases hskip : entrySkipped e.filename <;>
      simp [List.filter, hskip, extractAux, ih]

theorem findSome?_eq_find?_bind (f : α → Option γ) (l : List α) :
    l.findSome? f = (l.find? (fun a => (f a).isSome)).bind f := by
  induction l with
  | nil => simp
  | cons a l ih =>
    rw [List.findSome?_cons]
    cases h : f a <;> simp [List.find?_cons, h, ih]

theorem deriveStudentName_eq_spec (filename : String) :
    deriveStudentName filename = derivedNameSpec filename := by
  rw [deriveStudentName, derivedNameSpec, findSome?_eq_find?_bind]
  cases h : (splitPathParts filename).dropLast.find?
      (fun seg => (extract_student_name_from_moodle_folder seg).isSome) with
  | none => simp
  | some seg =>
    have hs := List.find?_some h
    cases hf : extract_student_name_from_moodle_folder seg with
    | none => rw [hf] at hs; simp at hs
    | some nm => simp [hf]

theorem filesFor_append (n : String) (es₁ es₂ : List (ZipEntry β)) :
    filesFor n (es₁ ++ es₂) = filesFor n es₁ ++ filesFor n es₂ := by
  induction es₁ with
  | nil => simp [filesFor]
  | cons e es ih =>
    by_cases h : (!entrySkipped e.filename && deriveStudentName e.filename == n) = true <;>
      simp [filesFor, h, ih]

theorem hasStudent_append (n : String) (es₁ es₂ : List (ZipEntry β)) :
    hasStudent n (es₁ ++ es₂) = (hasStudent n es₁ || hasStudent n es₂) := by
  induction es₁ with
  | nil => simp [hasStudent]
  | cons e es ih => simp [hasStudent, ih, Bool.or_assoc]

theorem filesFor_eq_nil_of_not_hasStudent (n : String) (es : List (ZipEntry β))
    (h : hasStudent n es = false) : filesFor n es = [] := by
  induction es with
  | nil => simp [filesFor]
  | cons e es ih =>
    rw [hasStudent] at h
    simp only [Bool.or_eq_false_iff] at h
    rw [filesFor, if_neg (by simp [h.1]), ih h.2]

end ZipHandler

/-- C3: for every non-skipped archive entry with at least two path segments,
`extract_student_submissions` derives the student name by walking the path
segments excluding the filename from the shallowest level down; the first
segment matching `<name>_<digits>_assignsubmission...` wins and its captured
name, trimmed of whitespace, is the student name; otherwise the first
(top-level) segment is used.  `Alice/report.pdf` yields student `Alice`, and
`Assignment1/Jane Doe_998877_assignsubmission_file/essay.docx` yields
student `Jane Doe`. -/
theorem extract_derives_student_names :
    (∀ filename : String,
      ZipHandler.deriveStudentName filename = ZipHandler.derivedNameSpec filename) ∧
    (∀ (β : Type) (c : β),
      ZipHandler.extract_student_submissions [⟨"Alice/report.pdf", c⟩] =
        [("Alice", [("report.pdf", c)])] ∧
      ZipHandler.extract_student_submissions
          [⟨"Assignment1/Jane Doe_998877_assignsubmission_file/essay.docx", c⟩] =
        [("Jane Doe", [("essay.docx", c)])]) :=
  ⟨ZipHandler.deriveStudentName_eq_spec, fun _ _ => ⟨rfl, rfl⟩⟩

/-- C6: `extract_student_submissions` assigns nothing from skipped entries —
directory entries, paths containing `__MACOSX`, dot-prefixed leaf filenames,
and entries with fewer than two path segments: the extraction result is
unchanged when all skipped entries are removed up front, and the spec's
example archive (`__MACOSX/._essay.docx` plus a root-level `readme.txt`)
yields an empty mapping. -/
theorem extract_ignores_skipped_entries :
    (∀ (β : Type) (entries : List (ZipHandler.ZipEntry β)),
      ZipHandler.extract_student_submissions entries =
        ZipHandler.extract_student_submissions (ZipHandler.keptEntries entries)) ∧
    (∀ (β : Type) (c c' : β),
      ZipHandler.extract_student_submissions
        [⟨"__MACOSX/._essay.docx", c⟩, ⟨"readme.txt", c'⟩] = []) :=
  ⟨fun _ entries => (ZipHandler.extractAux_keptEntries entries []).symm,
   fun _ _ _ => rfl⟩

/-- C9: entries that derive to the same student name are merged into one
submission, whose file list is exactly the kept entries deriving that name
in archive traversal order; adding a later entry with the same derived name
appends its file to the end of the student's list and never overwrites an
earlier file. -/
theorem extract_accumulates_same_name (β : Type) (entries : List (ZipHandler.ZipEntry β))
    (e : ZipHandler.ZipEntry β) (n : String)
    (hkeep : ZipHandler.entrySkipped e.filename = false)
    (hname : ZipHandler.deriveStudentName e.filename = n) :
    ZipHandler.dictLookup (ZipHandler.extract_student_submissions entries) n =
      (if ZipHandler.hasStudent n entries then some (ZipHandler.filesFor n entries)
       else none) ∧
    ZipHandler.dictLookup (ZipHandler.extract_student_submissions (entries ++ [e])) n =
      some ((ZipHandler.dictLookup (ZipHandler.extract_student_submissions entries) n).getD []
        ++ [(ZipHandler.pathName e.filename, e.content)]) := by
  constructor
  · exact ZipHandler.dictLookup_extract entries n
  · rw [ZipHandler.dictLookup_extract, ZipHandler.dictLookup_extract,
      ZipHandler.hasStudent_append, ZipHandler.filesFor_append]
    have he : ZipHandler.hasStudent n [e] = true := by
      simp [ZipHandler.hasStudent, hkeep, hname]
    have hf : ZipHandler.filesFor n [e] = [(ZipHandler.pathName e.filename, e.content)] := by
      simp [ZipHandler.filesFor, hkeep, hname]
    cases h : ZipHandler.hasStudent n entries with
    | true => simp [he, hf]
    | false =>
      simp [he, hf, ZipHandler.filesFor_eq_nil_of_not_hasStudent n entries h]

/-- Concrete run of `extract_accumulates_same_name`: two files under the
folder `Bob` accumulate in order. -/
theorem extract_accumulates_same_name_witness :
    ZipHandler.dictLookup
        (ZipHandler.extract_student_submissions [⟨"Bob/a.txt", (0 : Nat)⟩]) "Bob" =
      (if ZipHandler.hasStudent "Bob" [⟨"Bob/a.txt", (0 : Nat)⟩] then
        some (ZipHandler.filesFor "Bob" [⟨"Bob/a.txt", (0 : Nat)⟩])
       else none) ∧
    ZipHandler.dictLookup
        (ZipHandler.extract_student_submissions
          ([⟨"Bob/a.txt", (0 : Nat)⟩] ++ [⟨"Bob/b.txt", (1 : Nat)⟩])) "Bob" =
      some ((ZipHandler.dictLookup
          (ZipHandler.extract_student_submissions [⟨"Bob/a.txt", (0 : Nat)⟩]) "Bob").getD []
        ++ [(ZipHandler.pathName "Bob/b.txt", (1 : Nat))]) :=
  extract_accumulates_same_name Nat [⟨"Bob/a.txt", 0⟩] ⟨"Bob/b.txt", 1⟩ "Bob"
    (by decide) (by decide)

/-!
Part 2 embeds `parse_document` (`src/parsers/zip_handler.py`): extension
dispatch over the external per-format text extractors, with the txt/md
branch decoding bytes as UTF-8 with replacement.
-/

namespace ZipHandler

/-- The Unicode replacement character emitted for malformed UTF-8. -/
def replacementChar : Char := Char.ofNat 0xFFFD

/-- Model of Python's `bytes.decode("utf-8", errors="replace")`: decode
valid UTF-8 sequences, emit `replacementChar` for each maximal malformed
subsequence, and continue — never fail.  `fuel` bounds the recursion; each
step consumes at least one byte, so `fuel = length` suffices. -/
def utf8DecodeReplaceGo : Nat → List Nat → List Char
  | 0, _ => []
  | _, [] => []
  | fuel + 1, b :: rest =>
    if b < 0x80 then Char.ofNat b :: utf8DecodeReplaceGo fuel rest
    else if 0xC2 ≤ b && b ≤ 0xDF then
      match rest with
      | [] => [replacementChar]
      | b1 :: rest1 =>
        if 0x80 ≤ b1 && b1 ≤ 0xBF then
          Char.ofNat ((b - 0xC0) * 64 + (b1 - 0x80)) :: utf8DecodeReplaceGo fuel rest1
        else replacementChar :: utf8DecodeReplaceGo fuel rest
    else if 0xE0 ≤ b && b ≤ 0xEF then
      match rest with
      | [] => [replacementChar]
      | b1 :: rest1 =>
        if (b == 0xE0 && 0xA0 ≤ b1 && b1 ≤ 0xBF) ||
           (b == 0xED && 0x80 ≤ b1 && b1 ≤ 0x9F) ||
           (b != 0xE0 && b != 0xED && 0x80 ≤ b1 && b1 ≤ 0xBF) then
          match rest1 with
          | [] => [replacementChar]
          | b2 :: rest2 =>
            if 0x80 ≤ b2 && b2 ≤ 0xBF then
              Char.ofNat ((b - 0xE0) * 4096 + (b1 - 0x80) * 64 + (b2 - 0x80)) ::
                utf8DecodeReplaceGo fuel rest2
            else replacementChar :: utf8DecodeReplaceGo fuel rest1
        else replacementChar :: utf8DecodeReplaceGo fuel rest
    else if 0xF0 ≤ b && b ≤ 0xF4 then
      match rest with
      | [] => [replacementChar]
      | b1 :: rest1 =>
        if (b == 0xF0 && 0x90 ≤ b1 && b1 ≤ 0xBF) ||
           (b == 0xF4 && 0x80 ≤ b1 && b1 ≤ 0x8F) ||
           (b != 0xF0 && b != 0xF4 && 0x80 ≤ b1 && b1 ≤ 0xBF) then
          match rest1 with
          | [] => [replacementChar]
          | b2 :: rest2 =>
            if 0x80 ≤ b2 && b2 ≤ 0xBF then
              match rest2 with
              | [] => [replacementChar]
              | b3 :: rest3 =>
                if 0x80 ≤ b3 && b3 ≤ 0xBF then
                  Char.ofNat ((b - 0xF0) * 262144 + (b1 - 0x80) * 4096 +
                      (b2 - 0x80) * 64 + (b3 - 0x80)) ::
                    utf8DecodeReplaceGo fuel rest3
                else replacementChar :: utf8DecodeReplaceGo fuel rest2
            else replacementChar :: utf8DecodeReplaceGo fuel rest1
        else replacementChar :: utf8DecodeReplaceGo fuel rest
    else replacementChar :: utf8DecodeReplaceGo fuel rest

/-- Total UTF-8 decoding with replacement. -/
def utf8DecodeReplace (bs : List Nat) : String :=
  String.mk (utf8DecodeReplaceGo bs.length bs)

/-- `PurePosixPath(filename).suffix`: the extension of the last path
segment — from the last `.`, provided that dot is neither the first nor the
last character of the segment. -/
def pathSuffix (filename : String) : String :=
  let cs := (pathName filename).toList
  let afterDot := cs.reverse.takeWhile (fun c => c != '.')
  if afterDot.length == cs.length then ""
  else if cs.length - 1 - afterDot.length == 0 then ""
  else if afterDot.isEmpty then ""
  else String.mk ('.' :: afterDot.reverse)

/-- Model of Python's `str.lower()` (ASCII case folding). -/
def strLower (s : String) : String :=
  String.mk (s.toList.map Char.toLower)

/-- The external per-format text extractors consumed by `parse_document`
(`parse_pdf`, `parse_docx`, `parse_excel`, `parse_html`), kept abstract. -/
structure DocParsers where
  parse_pdf : List Nat → String
  parse_docx : List Nat → String
  parse_excel : List Nat → String
  parse_html : List Nat → String

/-- `get_supported_extensions` from the source. -/
def get_supported_extensions : List String :=
  [".pdf", ".docx", ".xlsx", ".xls", ".txt", ".md", ".html", ".htm"]

/-- The extension dispatch of `parse_document`, after lowercasing. -/
def dispatchByExt (P : DocParsers) (ext : String) (content : List Nat) : Option String :=
  if ext == ".pdf" then some (P.parse_pdf content)
  else if ext == ".docx" then some (P.parse_docx content)
  else if ext == ".xlsx" || ext == ".xls" then some (P.parse_excel content)
  else if ext == ".html" || ext == ".htm" then some (P.parse_html content)
  else if ext == ".txt" || ext == ".md" then some (utf8DecodeReplace content)
  else none

/-- `parse_document`: lowercase the path suffix and dispatch on it. -/
def parse_document (P : DocParsers) (filename : String) (content : List Nat) : Option String :=
  dispatchByExt P (strLower (pathSuffix filename)) content

/-- A concrete parser pack for witnesses. -/
def trivialParsers : DocParsers :=
  ⟨fun _ => "", fun _ => "", fun _ => "", fun _ => ""⟩

end ZipHandler

/-- C10: `parse_document` is total over filenames: the extension is matched
case-insensitively (the dispatch depends only on the lowercased suffix, so
`REPORT.PDF` and `essay.TXT` are treated as supported), every extension
outside the supported set yields `none` rather than an error, and txt/md
files are decoded as UTF-8 with replacement, which never fails. -/
theorem parse_document_total_dispatch :
    (∀ (P : ZipHandler.DocParsers) (f₁ f₂ : String) (content : List Nat),
      ZipHandler.strLower (ZipHandler.pathSuffix f₁) =
        ZipHandler.strLower (ZipHandler.pathSuffix f₂) →
      ZipHandler.parse_document P f₁ content = ZipHandler.parse_document P f₂ content) ∧
    (∀ (P : ZipHandler.DocParsers) (filename : String) (content : List Nat),
      ZipHandler.strLower (ZipHandler.pathSuffix filename) ∉
        ZipHandler.get_supported_extensions →
      ZipHandler.parse_document P filename content = none) ∧
    (∀ (P : ZipHandler.DocParsers) (filename : String) (content : List Nat),
      (ZipHandler.strLower (ZipHandler.pathSuffix filename) = ".txt" ∨
       ZipHandler.strLower (ZipHandler.pathSuffix filename) = ".md") →
      ZipHandler.parse_document P filename content =
        some (ZipHandler.utf8DecodeReplace content)) ∧
    (∀ (P : ZipHandler.DocParsers) (content : List Nat),
      ZipHandler.parse_document P "REPORT.PDF" content = some (P.parse_pdf content) ∧
      ZipHandler.parse_document P "essay.TXT" content =
        some (ZipHandler.utf8DecodeReplace content)) := by
  refine ⟨?_, ?_, ?_, ?_⟩
  · intro P f₁ f₂ content h
    show ZipHandler.dispatchByExt _ _ _ = ZipHandler.dispatchByExt _ _ _
    rw [h]
  · intro P filename content h
    simp only [ZipHandler.get_supported_extensions, List.mem_cons, List.not_mem_nil,
      or_false, not_or] at h
    obtain ⟨h1, h2, h3, h4, h5, h6, h7, h8⟩ := h
    simp [ZipHandler.parse_document, ZipHandler.dispatchByExt,
      h1, h2, h3, h4, h5, h6, h7, h8]
  · intro P filename content h
    show ZipHandler.dispatchByExt _ _ _ = _
    rcases h with h | h <;> rw [h] <;> rfl
  · intro P content
    exact ⟨rfl, rfl⟩

/-- Concrete runs of `parse_document_total_dispatch`: an unsupported
extension yields `none`, a Markdown file decodes with replacement, and an
uppercase extension dispatches like its lowercase form. -/
theorem parse_document_total_dispatch_witness :
    ZipHandler.parse_document ZipHandler.trivialParsers "photo.jpg" [] = none ∧
    ZipHandler.parse_document ZipHandler.trivialParsers "notes.md" [228] =
      some (ZipHandler.utf8DecodeReplace [228]) ∧
    ZipHandler.parse_document ZipHandler.trivialParsers "REPORT.PDF" [] =
      ZipHandler.parse_document ZipHandler.trivialParsers "report.pdf" [] :=
  ⟨parse_document_total_dispatch.2.1 _ "photo.jpg" [] (by decide),
   parse_document_total_dispatch.2.2.1 _ "notes.md" [228] (Or.inr (by decide)),
   parse_document_total_dispatch.1 _ "REPORT.PDF" "report.pdf" [] (by decide)⟩

/-!
Part 3 embeds the prompt builders of `src/evaluation/llm_evaluator.py`:
`build_evaluation_prompt` (structured mode) and the inline prompt
construction of `evaluate_student_work_free_format(_async)`.
-/

namespace Evaluator

/-- `"\n".join(prompt_parts)`. -/
def joinParts : List String → String
  | [] => ""
  | [p] => p
  | p :: ps => p ++ "\n" ++ joinParts ps

/-- `build_evaluation_prompt`: the user prompt of structured mode.  The
rubric section is unconditional; knowledge-base and custom-instructions
sections are emitted only when nonempty; the submission section closes the
prompt.  No student identity appears anywhere. -/
def build_evaluation_prompt (student_work evaluation_grid knowledge_base
    custom_instructions : String) : String :=
  joinParts
    (["## Grille d'évaluation\n", evaluation_grid] ++
     (if knowledge_base == "" then [] else
       ["\n\n## Base de connaissances / Documents de référence\n", knowledge_base]) ++
     (if custom_instructions == "" then [] else
       ["\n\n## Instructions supplémentaires du professeur\n", custom_instructions]) ++
     ["\n\n## Travail de l'étudiant à évaluer\n", student_work])

/-- The user prompt sent by `evaluate_student_work` and
`evaluate_student_work_async` for a given student: exactly
`build_evaluation_prompt` — the student name does not enter the prompt. -/
def structured_user_prompt (_student_name student_work evaluation_grid knowledge_base
    custom_instructions : String) : String :=
  build_evaluation_prompt student_work evaluation_grid knowledge_base custom_instructions

/-- The user prompt built by `evaluate_student_work_free_format` and
`evaluate_student_work_free_format_async`: rubric, knowledge-base and
custom-instructions sections when nonempty, then the output-format section,
then the submission section whose heading names the student. -/
def free_format_user_prompt (student_name student_work evaluation_grid knowledge_base
    output_format_instructions custom_instructions : String) : String :=
  joinParts
    ((if evaluation_grid == "" then [] else ["## Grille d'évaluation\n", evaluation_grid]) ++
     (if knowledge_base == "" then [] else
       ["\n\n## Base de connaissances / Documents de référence\n", knowledge_base]) ++
     (if custom_instructions == "" then [] else
       ["\n\n## Instructions supplémentaires du professeur\n", custom_instructions]) ++
     ["\n\n## Format de sortie attendu\n", output_format_instructions] ++
     ["\n\n## Travail de l'étudiant (" ++ student_name ++ ") à évaluer\n", student_work])

/-- Join a list of sections with a fixed separator. -/
def joinSections (sep : String) : List String → String
  | [] => ""
  | [s] => s
  | s :: ss => s ++ sep ++ joinSections sep ss

/-- A labeled section: a `##` heading, a blank line, and the body. -/
def headedSection (title body : String) : String :=
  "## " ++ title ++ "\n\n" ++ body

/-- The amended spec's structured-mode prompt: rubric section, then
knowledge-base section (omitted if empty), then custom-instructions section
(omitted if empty), then the submission section, each a labeled heading over
its body, separated by blank lines — with no student identity line. -/
def structuredPromptSpec (evaluation_grid knowledge_base custom_instructions
    student_work : String) : String :=
  joinSections "\n\n\n"
    ([headedSection "Grille d'évaluation" evaluation_grid] ++
     (if knowledge_base == "" then [] else
       [headedSection "Base de connaissances / Documents de référence" knowledge_base]) ++
     (if custom_instructions == "" then [] else
       [headedSection "Instructions supplémentaires du professeur" custom_instructions]) ++
     [headedSection "Travail de l'étudiant à évaluer" student_work])

/-- The amended spec's free-form prompt: rubric section (omitted if empty,
in which case the blank-line prefix of the following heading opens the
prompt), knowledge-base and custom-instructions sections (omitted if
empty), then the output-format section, then the submission section whose
heading carries the student's identity. -/
def freePromptSpec (evaluation_grid knowledge_base custom_instructions
    output_format_instructions student_name student_work : String) : String :=
  (if evaluation_grid == "" then "\n\n" else "") ++
  joinSections "\n\n\n"
    ((if evaluation_grid == "" then [] else
       [headedSection "Grille d'évaluation" evaluation_grid]) ++
     (if knowledge_base == "" then [] else
       [headedSection "Base de connaissances / Documents de référence" knowledge_base]) ++
     (if custom_instructions == "" then [] else
       [headedSection "Instructions supplémentaires du professeur" custom_instructions]) ++
     [headedSection "Format de sortie attendu" output_format_instructions,
      headedSection ("Travail de l'étudiant (" ++ student_name ++ ") à évaluer")
        student_work])

end Evaluator

/-- C7 counterexample: the claim's "concatenated with the student's identity
line" fails in structured mode — the prompt for student `Alice` nowhere
contains `Alice` — and its unconditional rubric section fails in free-form
mode — with an empty rubric the free-form prompt has no rubric heading. -/
theorem prompt_identity_line_counterexample :
    ZipHandler.containsSub "Alice".toList
      (Evaluator.structured_user_prompt "Alice" "WORK" "GRID" "" "").toList = false ∧
    ZipHandler.containsSub "Grille".toList
      (Evaluator.free_format_user_prompt "Alice" "WORK" "" "" "FORMAT" "").toList = false := by
  decide

/-- C7 amended: in both modes the prompt is composed as rubric section
(always present in structured mode, omitted when empty in free-form mode),
then knowledge-base section (omitted if empty), then custom-instructions
section (omitted if empty), then — free-form only — the output-format
section, then the student-submission section, each under a labeled heading;
the student's identity appears only in free-form mode, inside the
submission-section heading, and structured mode carries no identity line. -/
theorem prompt_composition_follows_spec (student_name student_work evaluation_grid
    knowledge_base custom_instructions output_format_instructions : String) :
    Evaluator.structured_user_prompt student_name student_work evaluation_grid
        knowledge_base custom_instructions =
      Evaluator.structuredPromptSpec evaluation_grid knowledge_base custom_instructions
        student_work ∧
    Evaluator.free_format_user_prompt student_name student_work evaluation_grid
        knowledge_base output_format_instructions custom_instructions =
      Evaluator.freePromptSpec evaluation_grid knowledge_base custom_instructions
        output_format_instructions student_name student_work := by
  constructor
  · show Evaluator.build_evaluation_prompt _ _ _ _ = _
    rw [Evaluator.build_evaluation_prompt, Evaluator.structuredPromptSpec]
    cases hkb : knowledge_base == "" <;> cases hci : custom_instructions == "" <;>
      simp only [hkb, hci, if_true, if_false, Bool.false_eq_true] <;>
      apply String.ext <;>
      simp only [Evaluator.joinParts, Evaluator.joinSections, Evaluator.headedSection,
        List.cons_append, List.nil_append, String.data_append, List.append_assoc]
  · rw [Evaluator.free_format_user_prompt, Evaluator.freePromptSpec]
    cases hgr : evaluation_grid == "" <;> cases hkb : knowledge_base == "" <;>
      cases hci : custom_instructions == "" <;>
      simp only [hgr, hkb, hci, if_true, if_false, Bool.false_eq_true] <;>
      apply String.ext <;>
      simp only [Evaluator.joinParts, Evaluator.joinSections, Evaluator.headedSection,
        List.cons_append, List.nil_append, String.data_append, List.append_assoc]

/-!
Part 4 embeds the concurrent evaluation orchestrator
(`evaluate_all_students_async` and `evaluate_all_students_free_format_async`
in `src/evaluation/llm_evaluator.py`).

One `evaluate_with_semaphore` coroutine has exactly two suspension points:
acquiring the semaphore (`async with semaphore`) and awaiting the LLM call.
Everything between suspension points runs atomically on the asyncio event
loop; in particular the `completed += 1; progress_callback(...); return`
suffix (in both the success and the exception branch) and the semaphore
release on leaving `async with` form one atomic segment.  The model is a
small-step scheduler over per-task phases: `waiting` (coroutine created by
`asyncio.gather`, not yet holding a permit), `inCall` (holding a permit,
awaiting the network), `done` (outcome recorded).  The behavior of each
task's call is predetermined by its `TaskSpec`: either a successful payload
or a raised exception, which the `except Exception` branch catches and
returns as a value.  `asyncio.gather` keeps results in task-creation
order, which the model's task-list order mirrors.
-/

namespace Orchestrator

/-- What one student's awaited LLM call does: return a payload or raise an
exception. -/
inductive CallResult (ρ : Type) where
  | ok (r : ρ)
  | exn (msg : String)
  deriving DecidableEq

/-- One scheduled task: the student's name, submitted work, and the
predetermined behavior of their evaluation call. -/
structure TaskSpec (ρ : Type) where
  student_name : String
  student_work : String
  call : CallResult ρ
  deriving DecidableEq

/-- The phase of one task on the event loop. -/
inductive TaskPhase (ω : Type) where
  | waiting
  | inCall
  | done (outcome : ω)
  deriving DecidableEq

def isWaiting : TaskPhase ω → Bool
  | .waiting => true
  | _ => false

def isInCall : TaskPhase ω → Bool
  | .inCall => true
  | _ => false

def isDone : TaskPhase ω → Bool
  | .done _ => true
  | _ => false

/-- One recorded invocation of
`progress_callback(completed, total, student_name)`. -/
structure ProgressCall where
  completed : Nat
  total : Nat
  student_name : String
  deriving DecidableEq

/-- Event-loop state: per-task phases (in task-creation order), available
semaphore permits, the shared `completed` counter, and the sequence of
progress-callback invocations so far. -/
structure OrchState (ω : Type) where
  tasks : List (TaskPhase ω)
  sem : Nat
  completed : Nat
  log : List ProgressCall
  deriving DecidableEq

/-- A scheduling decision: start task `i` (acquire a permit) or finish task
`i` (its awaited call returns or raises; the wrapper records the outcome,
increments the counter, notifies the callback, and releases the permit —
one atomic segment). -/
inductive StepLabel where
  | start (i : Nat)
  | finish (i : Nat)
  deriving DecidableEq

/-- Apply one scheduling step; `none` when the step is not enabled. -/
def applyStep (specs : List (TaskSpec ρ)) (wrap : String → CallResult ρ → ω)
    (s : OrchState ω) : StepLabel → Option (OrchState ω)
  | .start i =>
    match s.tasks[i]? with
    | some .waiting =>
      if 0 < s.sem then
        some { s with tasks := s.tasks.set i .inCall, sem := s.sem - 1 }
      else none
    | _ => none
  | .finish i =>
    match s.tasks[i]?, specs[i]? with
    | some .inCall, some sp =>
      some { tasks := s.tasks.set i (.done (wrap sp.student_name sp.call)),
             sem := s.sem + 1,
             completed := s.completed + 1,
             log := s.log ++ [⟨s.completed + 1, specs.length, sp.student_name⟩] }
    | _, _ => none

/-- Initial state: every task waiting, `max_concurrent` permits, counter 0,
no callback invocations. -/
def initState (specs : List (TaskSpec ρ)) (maxc : Nat) : OrchState ω :=
  { tasks := specs.map (fun _ => .waiting), sem := maxc, completed := 0, log := [] }

/-- Run a sequence of scheduling decisions; `none` if any is not enabled. -/
def runSteps (specs : List (TaskSpec ρ)) (wrap : String → CallResult ρ → ω) :
    OrchState ω → List StepLabel → Option (OrchState ω)
  | s, [] => some s
  | s, l :: ls =>
    match applyStep specs wrap s l with
    | some s' => runSteps specs wrap s' ls
    | none => none

/-- No scheduling step is enabled: no task is awaiting its call, and either
no permit is free or no task is waiting to start. -/
def isTerminal (s : OrchState ω) : Bool :=
  s.tasks.all (fun t => !isInCall t) &&
  (s.sem == 0 || s.tasks.all (fun t => !isWaiting t))

/-- The outcome list as `asyncio.gather` returns it (task-creation order). -/
def gatherResults (s : OrchState ω) : List ω :=
  s.tasks.filterMap (fun t => match t with | .done o => some o | _ => none)

/-- Number of tasks currently holding a permit (in flight). -/
def countInCall (s : OrchState ω) : Nat :=
  s.tasks.countP (fun t => isInCall t)

/-- Number of finished tasks. -/
def countDone (s : OrchState ω) : Nat :=
  s.tasks.countP (fun t => isDone t)

/-- Student names of the finished tasks, in task order. -/
def doneNames (specs : List (TaskSpec ρ)) (tasks : List (TaskPhase ω)) : List String :=
  (specs.zip tasks).filterMap (fun p => if isDone p.2 then some p.1.student_name else none)

/-- Counting under a pointwise list update. -/
theorem countP_set {α : Type} (l : List α) (p : α → Bool) (i : Nat) (a b : α)
    (h : l[i]? = some a) :
    (l.set i b).countP p + (if p a then 1 else 0) = l.countP p + (if p b then 1 else 0) := by
  induction l generalizing i with
  | nil => simp at h
  | cons x xs ih =>
    cases i with
    | zero =>
      simp only [List.getElem?_cons_zero, Option.some.injEq] at h
      subst h
      simp only [List.set, List.countP_cons]
      omega
    | succ n =>
      simp only [List.getElem?_cons_succ] at h
      simp only [List.set, List.countP_cons]
      have := ih n h
      omega

/-- Updating a non-done task to a non-done phase leaves `doneNames` alone. -/
theorem doneNames_set_notdone (specs : List (TaskSpec ρ)) (tasks : List (TaskPhase ω))
    (i : Nat) (t t' : TaskPhase ω) (ht : tasks[i]? = some t)
    (h1 : isDone t = false) (h2 : isDone t' = false) :
    doneNames specs (tasks.set i t') = doneNames specs tasks := by
  induction i generalizing specs tasks with
  | zero =>
    cases tasks with
    | nil => simp at ht
    | cons t0 ts =>
      simp only [List.getElem?_cons_zero, Option.some.injEq] at ht
      subst ht
      cases specs with
      | nil => simp [doneNames]
      | cons sp ss => simp [doneNames, List.set, h1, h2]
  | succ n ih =>
    cases tasks with
    | nil => simp at ht
    | cons t0 ts =>
      simp only [List.getElem?_cons_succ] at ht
      cases specs with
      | nil => simp [doneNames]
      | cons sp ss =>
        have hrec := ih ss ts ht
        simp only [doneNames] at hrec ⊢
        simp only [List.set, List.zip_cons_cons, List.filterMap_cons, hrec]

/-- Finishing an in-flight task inserts its student name into `doneNames`,
up to permutation. -/
theorem doneNames_set_done (specs : List (TaskSpec ρ)) (tasks : List (TaskPhase ω))
    (i : Nat) (sp : TaskSpec ρ) (o : ω)
    (hsp : specs[i]? = some sp) (ht : tasks[i]? = some .inCall) :
    (doneNames specs (tasks.set i (.done o))).Perm
      (sp.student_name :: doneNames specs tasks) := by
  induction i generalizing specs tasks with
  | zero =>
    cases tasks with
    | nil => simp at ht
    | cons t0 ts =>
      simp only [List.getElem?_cons_zero, Option.some.injEq] at ht
      cases specs with
      | nil => simp at hsp
      | cons sp0 ss =>
        simp only [List.getElem?_cons_zero, Option.some.injEq] at hsp
        subst hsp
        subst ht
        simp [doneNames, List.set, isDone]
  | succ n ih =>
    cases tasks with
    | nil => simp at ht
    | cons t0 ts =>
      simp only [List.getElem?_cons_succ] at ht
      cases specs with
      | nil => simp at hsp
      | cons sp0 ss =>
        simp only [List.getElem?_cons_succ] at hsp
        have hrec := ih ss ts hsp ht
        cases h0 : isDone t0 with
        | false =>
          simpa [doneNames, List.set, List.filterMap_cons, h0] using hrec
        | true =>
          simp only [doneNames, List.set, List.zip_cons_cons, List.filterMap_cons, h0,
            if_true]
          exact (hrec.cons sp0.student_name).trans
            (List.Perm.swap sp.student_name sp0.student_name _)

/-- When every task maps to `done` through `g`, `doneNames` lists all
student names in task order. -/
theorem doneNames_map_done (specs : List (TaskSpec ρ)) (g : TaskSpec ρ → ω) :
    doneNames specs (specs.map (fun sp => TaskPhase.done (g sp))) =
      specs.map TaskSpec.student_name := by
  induction specs with
  | nil => simp [doneNames]
  | cons sp ss ih => simp [doneNames, isDone, List.filterMap_cons] at ih ⊢; exact ih

/-- `gatherResults` on an all-done task list recovers the outcomes in task
order. -/
theorem gatherResults_map_done (specs : List (TaskSpec ρ)) (g : TaskSpec ρ → ω) :
    gatherResults (ω := ω)
        { tasks := specs.map (fun sp => TaskPhase.done (g sp)),
          sem := m, completed := c, log := lg } =
      specs.map g := by
  induction specs with
  | nil => simp [gatherResults]
  | cons sp ss ih => simpa [gatherResults, List.filterMap_cons] using ih

/-- The run invariant: task-list length, permit accounting, counter/log
agreement, callback counts `1..completed`, callback names matching the
finished tasks, and finished outcomes determined by their own task spec. -/
structure Inv (specs : List (TaskSpec ρ)) (wrap : String → CallResult ρ → ω)
    (maxc : Nat) (s : OrchState ω) : Prop where
  len : s.tasks.length = specs.length
  semAcct : countInCall s + s.sem = maxc
  compLog : s.completed = s.log.length
  compDone : s.completed = countDone s
  logCounts : s.log.map ProgressCall.completed = List.range' 1 s.log.length
  logNames : (s.log.map ProgressCall.student_name).Perm (doneNames specs s.tasks)
  outs : ∀ (i : Nat) (o : ω), s.tasks[i]? = some (TaskPhase.done o) →
    ∃ sp, specs[i]? = some sp ∧ o = wrap sp.student_name sp.call

theorem inv_initState (specs : List (TaskSpec ρ)) (wrap : String → CallResult ρ → ω)
    (maxc : Nat) : Inv specs wrap maxc (initState specs maxc) := by
  refine ⟨?_, ?_, ?_, ?_, ?_, ?_, ?_⟩
  · simp [initState]
  · simp only [countInCall, initState]
    rw [List.countP_eq_zero.mpr]
    · omega
    · intro t htmem
      obtain ⟨sp, _, rfl⟩ := List.mem_map.mp htmem
      simp [isInCall]
  · simp [initState]
  · simp only [countDone, initState]
    rw [List.countP_eq_zero.mpr]
    intro t htmem
    obtain ⟨sp, _, rfl⟩ := List.mem_map.mp htmem
    simp [isDone]
  · simp [initState]
  · simp only [initState, List.map_nil]
    rw [show doneNames specs (specs.map fun _ => TaskPhase.waiting) = [] from ?_]
    · induction specs with
      | nil => simp [doneNames]
      | cons sp ss ih => simpa [doneNames, isDone, List.filterMap_cons] using ih
  · intro i o h
    simp only [initState, List.getElem?_map] at h
    cases hsp : specs[i]? <;> rw [hsp] at h <;> simp at h

theorem lt_length_of_getElem?_eq_some {α : Type} {l : List α} {i : Nat} {a : α}
    (h : l[i]? = some a) : i < l.length := by
  by_contra hc
  rw [List.getElem?_eq_none (Nat.le_of_not_lt hc)] at h
  exact absurd h (by simp)

theorem inv_applyStep {specs : List (TaskSpec ρ)} {wrap : String → CallResult ρ → ω}
    {maxc : Nat} {s s' : OrchState ω} {l : StepLabel}
    (hinv : Inv specs wrap maxc s) (h : applyStep specs wrap s l = some s') :
    Inv specs wrap maxc s' := by
  cases l with
  | start i =>
    simp only [applyStep] at h
    split at h
    case _ ht =>
      split at h
      case isTrue hsem =>
        obtain rfl := Option.some.inj h
        have hlt := lt_length_of_getElem?_eq_some ht
        have hc := countP_set s.tasks (fun t => isInCall t) i _ TaskPhase.inCall ht
        have hd := countP_set s.tasks (fun t => isDone t) i _ TaskPhase.inCall ht
        simp [isInCall, isDone] at hc hd
        refine ⟨?_, ?_, ?_, ?_, ?_, ?_, ?_⟩
        · simpa [List.length_set] using hinv.len
        · have := hinv.semAcct
          simp only [countInCall, isInCall] at this ⊢
          omega
        · exact hinv.compLog
        · have := hinv.compDone
          simp only [countDone, isDone] at this ⊢
          omega
        · exact hinv.logCounts
        · have hdn := doneNames_set_notdone specs s.tasks i TaskPhase.waiting
            TaskPhase.inCall ht (by simp [isDone]) (by simp [isDone])
          simpa [hdn] using hinv.logNames
        · intro j o hj
          by_cases hji : j = i
          · subst hji
            rw [List.getElem?_set_self hlt] at hj
            exact absurd hj (by simp)
          · rw [List.getElem?_set_ne (fun hn => hji hn.symm)] at hj
            exact hinv.outs j o hj
      case isFalse => exact absurd h (by simp)
    case _ => exact absurd h (by simp)
  | finish i =>
    simp only [applyStep] at h
    split at h
    case _ ht hsp =>
      rename_i sp
      obtain rfl := Option.some.inj h
      have hlt := lt_length_of_getElem?_eq_some ht
      have hc := countP_set s.tasks (fun t => isInCall t) i _
        (TaskPhase.done (wrap sp.student_name sp.call)) ht
      have hd := countP_set s.tasks (fun t => isDone t) i _
        (TaskPhase.done (wrap sp.student_name sp.call)) ht
      simp [isInCall, isDone] at hc hd
      refine ⟨?_, ?_, ?_, ?_, ?_, ?_, ?_⟩
      · simpa [List.length_set] using hinv.len
      · have := hinv.semAcct
        simp only [countInCall, isInCall] at this ⊢
        omega
      · have := hinv.compLog
        simp only [List.length_append, List.length_cons, List.length_nil]
        omega
      · have := hinv.compDone
        simp only [countDone, isDone] at this ⊢
        omega
      · have hcl := hinv.compLog
        simp only [List.map_append, List.map_cons, List.map_nil, List.length_append,
          List.length_cons, List.length_nil, hinv.logCounts]
        rw [List.range'_concat]
        simp only [List.append_cancel_left_eq, List.cons.injEq, and_true]
        omega
      · have hdn := doneNames_set_done specs s.tasks i sp
          (wrap sp.student_name sp.call) hsp ht
        refine List.Perm.trans ?_ hdn.symm
        simp only [List.map_append, List.map_cons, List.map_nil]
        refine (List.perm_append_singleton _ _).trans ?_
        exact hinv.logNames.cons _
      · intro j o hj
        by_cases hji : j = i
        · subst hji
          rw [List.getElem?_set_self hlt] at hj
          simp only [Option.some.injEq, TaskPhase.done.injEq] at hj
          exact ⟨_, hsp, hj.symm⟩
        · rw [List.getElem?_set_ne (fun hn => hji hn.symm)] at hj
          exact hinv.outs j o hj
    case _ => exact absurd h (by simp)

theorem inv_runSteps {specs : List (TaskSpec ρ)} {wrap : String → CallResult ρ → ω}
    {maxc : Nat} (labels : List StepLabel) :
    ∀ s s' : OrchState ω, Inv specs wrap maxc s →
      runSteps specs wrap s labels = some s' → Inv specs wrap maxc s' := by
  induction labels with
  | nil =>
    intro s s' hinv h
    obtain rfl := Option.some.inj h
    exact hinv
  | cons l ls ih =>
    intro s s' hinv h
    simp only [runSteps] at h
    split at h
    case _ s₁ h₁ => exact ih s₁ s' (inv_applyStep hinv h₁) h
    case _ => exact absurd h (by simp)

/-- In a terminal state reached with at least one permit, every task is
done: no task is in flight, so all permits are free, so a waiting task
could have started. -/
theorem all_done_of_terminal {specs : List (TaskSpec ρ)} {wrap : String → CallResult ρ → ω}
    {maxc : Nat} {s : OrchState ω} (hinv : Inv specs wrap maxc s)
    (hterm : isTerminal s = true) (hmax : 1 ≤ maxc) :
    ∀ t ∈ s.tasks, isDone t = true := by
  rw [isTerminal, Bool.and_eq_true] at hterm
  obtain ⟨h1, h2⟩ := hterm
  rw [List.all_eq_true] at h1
  have hzero : countInCall s = 0 := by
    rw [countInCall, List.countP_eq_zero]
    intro t htm
    simpa using h1 t htm
  have hsem : s.sem = maxc := by
    have := hinv.semAcct
    omega
  have hnz : (s.sem == 0) = false := beq_eq_false_iff_ne.mpr (by omega)
  rw [hnz, Bool.false_or, List.all_eq_true] at h2
  intro t htm
  have hw := h2 t htm
  have hic := h1 t htm
  cases t with
  | waiting => simp [isWaiting] at hw
  | inCall => simp [isInCall] at hic
  | done o => rfl

/-- With every task done, the task list is exactly the per-spec outcome of
`wrap`, in task-creation order. -/
theorem tasks_eq_of_all_done {specs : List (TaskSpec ρ)} {wrap : String → CallResult ρ → ω}
    {maxc : Nat} {s : OrchState ω} (hinv : Inv specs wrap maxc s)
    (hdone : ∀ t ∈ s.tasks, isDone t = true) :
    s.tasks = specs.map (fun sp => TaskPhase.done (wrap sp.student_name sp.call)) := by
  have hlen := hinv.len
  apply List.ext_getElem?
  intro i
  cases hi : s.tasks[i]? with
  | none =>
    have hge : s.tasks.length ≤ i := by
      by_contra hc
      rw [List.getElem?_eq_getElem (Nat.lt_of_not_le hc)] at hi
      exact absurd hi (by simp)
    rw [List.getElem?_map, List.getElem?_eq_none (by omega)]
    rfl
  | some t =>
    have hdt := hdone t (List.getElem?_mem hi)
    cases t with
    | waiting => simp [isDone] at hdt
    | inCall => simp [isDone] at hdt
    | done o =>
      obtain ⟨sp, hsp, rfl⟩ := hinv.outs i o hi
      rw [List.getElem?_map, hsp]
      rfl

/-- `CriterionEvaluation` dataclass: one criterion's score. -/
structure CriterionEvaluation where
  nom : String
  note : Int
  note_max : Int
  commentaire : String
  deriving DecidableEq

/-- The schema-validated payload of one structured response: the fields of
`EvaluationResult` other than the student name.  The JSON numbers
`note_finale`/`note_max` are modeled as rationals. -/
structure StructuredResponse where
  feedback_general : String
  criteres : List CriterionEvaluation
  note_finale : Rat
  note_max : Rat
  deriving DecidableEq

/-- `EvaluationResult` dataclass: the structured evaluation tagged with the
student's name. -/
structure EvaluationResult where
  student_name : String
  feedback_general : String
  criteres : List CriterionEvaluation
  note_finale : Rat
  note_max : Rat
  deriving DecidableEq

/-- One element of the list returned by `evaluate_all_students_async`:
`EvaluationResult | Exception`. -/
inductive StructuredOutcome where
  | result (r : EvaluationResult)
  | exn (msg : String)
  deriving DecidableEq

/-- How structured-mode `evaluate_with_semaphore` packages a task's terminal
state: a successful call builds an `EvaluationResult` carrying
`student_name`; a raised exception is returned as the bare exception value,
which carries no student name. -/
def wrapStructured (student_name : String) :
    CallResult StructuredResponse → StructuredOutcome
  | .ok r => .result ⟨student_name, r.feedback_general, r.criteres,
      r.note_finale, r.note_max⟩
  | .exn m => .exn m

/-- The student name readable off a structured outcome, if any. -/
def structuredOutcomeName : StructuredOutcome → Option String
  | .result r => some r.student_name
  | .exn _ => none

/-- Free-format outcome content: the model's text or the caught exception. -/
inductive FreeContent where
  | text (t : String)
  | exn (msg : String)
  deriving DecidableEq

/-- How free-format `evaluate_with_semaphore` packages a task's terminal
state: both branches return `(student_name, content-or-exception)`. -/
def wrapFree (student_name : String) : CallResult String → String × FreeContent
  | .ok t => (student_name, .text t)
  | .exn m => (student_name, .exn m)

theorem wrapFree_fst (n : String) (c : CallResult String) : (wrapFree n c).1 = n := by
  cases c <;> rfl

/-- Mapping the name component off the free-format outcome list recovers
the scheduled names in order. -/
theorem map_fst_map_wrapFree (specs : List (TaskSpec String)) :
    (specs.map (fun sp => wrapFree sp.student_name sp.call)).map Prod.fst =
      specs.map TaskSpec.student_name := by
  induction specs with
  | nil => rfl
  | cons sp ss ih => simp only [List.map_cons, ih, wrapFree_fst]

theorem filterMap_done_map (specs : List (TaskSpec ρ)) (g : TaskSpec ρ → ω) :
    (specs.map (fun sp => TaskPhase.done (g sp))).filterMap
      (fun t => match t with | TaskPhase.done o => some o | _ => none) =
    specs.map g := by
  induction specs with
  | nil => simp
  | cons sp ss ih => simpa [List.filterMap_cons] using ih

/-- `gatherResults` when the task list is fully determined. -/
theorem gatherResults_eq_of_tasks_map {s : OrchState ω} (specs : List (TaskSpec ρ))
    (g : TaskSpec ρ → ω)
    (h : s.tasks = specs.map (fun sp => TaskPhase.done (g sp))) :
    gatherResults s = specs.map g := by
  rw [gatherResults, h, filterMap_done_map]

/-- Any run from the initial state that ends in a terminal state with a
positive concurrency limit has every task done, with the outcome of task
`i` determined by spec `i` alone. -/
theorem run_terminal_tasks {specs : List (TaskSpec ρ)} {wrap : String → CallResult ρ → ω}
    {maxc : Nat} {labels : List StepLabel} {s : OrchState ω}
    (hrun : runSteps specs wrap (initState specs maxc) labels = some s)
    (hterm : isTerminal s = true) (hmax : 1 ≤ maxc) :
    s.tasks = specs.map (fun sp => TaskPhase.done (wrap sp.student_name sp.call)) := by
  have hinv := inv_runSteps labels _ s (inv_initState specs wrap maxc) hrun
  exact tasks_eq_of_all_done hinv (all_done_of_terminal hinv hterm hmax)

end Orchestrator

/-- C5: at every step of every run of the orchestrator, at most
`max_concurrent` evaluation tasks are in flight: any state reachable from
the initial state satisfies the bound, for every limit value and in either
evaluation mode (the wrapper is arbitrary), while steps may interleave in
any order. -/
theorem orchestrator_concurrency_bound (ρ ω : Type)
    (wrap : String → Orchestrator.CallResult ρ → ω)
    (specs : List (Orchestrator.TaskSpec ρ)) (maxc : Nat)
    (labels : List Orchestrator.StepLabel) (s : Orchestrator.OrchState ω)
    (hrun : Orchestrator.runSteps specs wrap (Orchestrator.initState specs maxc) labels =
      some s) :
    Orchestrator.countInCall s ≤ maxc := by
  have hinv := Orchestrator.inv_runSteps labels _ s
    (Orchestrator.inv_initState specs wrap maxc) hrun
  have := hinv.semAcct
  omega

/-- Concrete run of `orchestrator_concurrency_bound` at limit 1. -/
theorem orchestrator_concurrency_bound_witness :
    Orchestrator.countInCall
      (⟨[Orchestrator.TaskPhase.done ("A", Orchestrator.FreeContent.exn "boom"),
         Orchestrator.TaskPhase.done ("B", Orchestrator.FreeContent.text "okB")],
        1, 2, [⟨1, 2, "A"⟩, ⟨2, 2, "B"⟩]⟩ : Orchestrator.OrchState (String × Orchestrator.FreeContent)) ≤ 1 :=
  orchestrator_concurrency_bound String (String × Orchestrator.FreeContent)
    Orchestrator.wrapFree
    [⟨"A", "w", Orchestrator.CallResult.exn "boom"⟩,
     ⟨"B", "w", Orchestrator.CallResult.ok "okB"⟩] 1
    [Orchestrator.StepLabel.start 0, Orchestrator.StepLabel.finish 0,
     Orchestrator.StepLabel.start 1, Orchestrator.StepLabel.finish 1] _ (by decide)

/-- C1: for `N` scheduled students, every completed run of either
orchestrator (structured `evaluate_all_students_async` and free-format
`evaluate_all_students_free_format_async`) produces exactly `N` outcomes in
task-creation order — one per student, determined by that student's call
alone — with a raised exception captured as that student's failure value;
no outcome is lost, duplicated, or left pending, no exception escapes, and
one student's exception leaves every other student's outcome unchanged. -/
theorem orchestrator_returns_all_outcomes :
    (∀ (specs : List (Orchestrator.TaskSpec Orchestrator.StructuredResponse))
       (maxc : Nat) (labels : List Orchestrator.StepLabel)
       (s : Orchestrator.OrchState Orchestrator.StructuredOutcome),
      Orchestrator.runSteps specs Orchestrator.wrapStructured
          (Orchestrator.initState specs maxc) labels = some s →
      Orchestrator.isTerminal s = true → 1 ≤ maxc →
      Orchestrator.gatherResults s =
        specs.map (fun sp => Orchestrator.wrapStructured sp.student_name sp.call)) ∧
    (∀ (specs : List (Orchestrator.TaskSpec String))
       (maxc : Nat) (labels : List Orchestrator.StepLabel)
       (s : Orchestrator.OrchState (String × Orchestrator.FreeContent)),
      Orchestrator.runSteps specs Orchestrator.wrapFree
          (Orchestrator.initState specs maxc) labels = some s →
      Orchestrator.isTerminal s = true → 1 ≤ maxc →
      Orchestrator.gatherResults s =
        specs.map (fun sp => Orchestrator.wrapFree sp.student_name sp.call)) := by
  constructor
  · intro specs maxc labels s hrun hterm hmax
    exact Orchestrator.gatherResults_eq_of_tasks_map specs _
      (Orchestrator.run_terminal_tasks hrun hterm hmax)
  · intro specs maxc labels s hrun hterm hmax
    exact Orchestrator.gatherResults_eq_of_tasks_map specs _
      (Orchestrator.run_terminal_tasks hrun hterm hmax)

/-- Concrete run of `orchestrator_returns_all_outcomes`: two students, the
second one's call raises, tasks complete out of order; the result list
still pairs each student with their own outcome, the failure as a value. -/
theorem orchestrator_returns_all_outcomes_witness :
    Orchestrator.gatherResults
      (⟨[Orchestrator.TaskPhase.done (Orchestrator.StructuredOutcome.result
            ⟨"A", "fb", [], 15, 20⟩),
         Orchestrator.TaskPhase.done (Orchestrator.StructuredOutcome.exn "boom")],
        2, 2, [⟨1, 2, "B"⟩, ⟨2, 2, "A"⟩]⟩ :
        Orchestrator.OrchState Orchestrator.StructuredOutcome) =
      [Orchestrator.StructuredOutcome.result ⟨"A", "fb", [], 15, 20⟩,
       Orchestrator.StructuredOutcome.exn "boom"] :=
  (orchestrator_returns_all_outcomes.1
    [⟨"A", "w", Orchestrator.CallResult.ok ⟨"fb", [], 15, 20⟩⟩,
     ⟨"B", "w", Orchestrator.CallResult.exn "boom"⟩] 2
    [Orchestrator.StepLabel.start 0, Orchestrator.StepLabel.start 1,
     Orchestrator.StepLabel.finish 1, Orchestrator.StepLabel.finish 0] _
    (by decide) (by decide) (by decide)).trans (by decide)

/-- C4: in every completed run with a progress callback, the callback is
invoked exactly once per task, after that task reaches its terminal state,
and the observed `completed_count` values are exactly `1..total_count` with
no gaps and no repeats: the increment-and-notify suffix is one atomic
event-loop segment, so counts are never skipped or duplicated, while the
names arrive in completion order (a permutation of the scheduled
students). -/
theorem orchestrator_progress_counts (ρ ω : Type)
    (wrap : String → Orchestrator.CallResult ρ → ω)
    (specs : List (Orchestrator.TaskSpec ρ)) (maxc : Nat)
    (labels : List Orchestrator.StepLabel) (s : Orchestrator.OrchState ω)
    (hrun : Orchestrator.runSteps specs wrap (Orchestrator.initState specs maxc) labels =
      some s)
    (hterm : Orchestrator.isTerminal s = true) (hmax : 1 ≤ maxc) :
    s.log.map Orchestrator.ProgressCall.completed = List.range' 1 specs.length ∧
    (s.log.map Orchestrator.ProgressCall.student_name).Perm
      (specs.map Orchestrator.TaskSpec.student_name) := by
  have hinv := Orchestrator.inv_runSteps labels _ s
    (Orchestrator.inv_initState specs wrap maxc) hrun
  have htasks := Orchestrator.run_terminal_tasks hrun hterm hmax
  have hcd : Orchestrator.countDone s = specs.length := by
    rw [Orchestrator.countDone, htasks]
    simp [Orchestrator.isDone, List.countP_map, Function.comp]
  have hlen : s.log.length = specs.length := by
    have h1 := hinv.compLog
    have h2 := hinv.compDone
    omega
  constructor
  · rw [hinv.logCounts, hlen]
  · have hdn : Orchestrator.doneNames specs s.tasks =
        specs.map Orchestrator.TaskSpec.student_name := by
      rw [htasks]
      exact Orchestrator.doneNames_map_done specs _
    exact hinv.logNames.trans (hdn ▸ List.Perm.refl _)

/-- Concrete run of `orchestrator_progress_counts`: three students finishing
out of submission order still yield counts `1, 2, 3` and each student's name
exactly once. -/
theorem orchestrator_progress_counts_witness :
    (([⟨1, 3, "Y"⟩, ⟨2, 3, "X"⟩, ⟨3, 3, "Z"⟩] : List Orchestrator.ProgressCall).map
      Orchestrator.ProgressCall.completed = List.range' 1 3) ∧
    ((([⟨1, 3, "Y"⟩, ⟨2, 3, "X"⟩, ⟨3, 3, "Z"⟩] : List Orchestrator.ProgressCall).map
      Orchestrator.ProgressCall.student_name).Perm ["X", "Y", "Z"]) :=
  orchestrator_progress_counts String (String × Orchestrator.FreeContent)
    Orchestrator.wrapFree
    [⟨"X", "w", Orchestrator.CallResult.ok "r1"⟩,
     ⟨"Y", "w", Orchestrator.CallResult.ok "r2"⟩,
     ⟨"Z", "w", Orchestrator.CallResult.exn "e"⟩] 2
    [Orchestrator.StepLabel.start 0, Orchestrator.StepLabel.start 1,
     Orchestrator.StepLabel.finish 1, Orchestrator.StepLabel.start 2,
     Orchestrator.StepLabel.finish 0, Orchestrator.StepLabel.finish 2]
    ⟨[Orchestrator.TaskPhase.done ("X", Orchestrator.FreeContent.text "r1"),
      Orchestrator.TaskPhase.done ("Y", Orchestrator.FreeContent.text "r2"),
      Orchestrator.TaskPhase.done ("Z", Orchestrator.FreeContent.exn "e")],
     2, 3, [⟨1, 3, "Y"⟩, ⟨2, 3, "X"⟩, ⟨3, 3, "Z"⟩]⟩
    (by decide) (by decide) (by decide)

/-- C2 counterexample: in structured mode a failed student's outcome is the
bare exception value.  In this concrete 2-student run both calls raise
`timeout`; the orchestrator returns two identical outcomes that carry no
student name (`structuredOutcomeName` is `none`), so the outcomes of the
two distinct students `Alice` and `Bob` are neither individually tagged nor
carrying two distinct names. -/
theorem structured_failures_untagged_counterexample :
    Orchestrator.runSteps
        ([⟨"Alice", "workA", Orchestrator.CallResult.exn "timeout"⟩,
          ⟨"Bob", "workB", Orchestrator.CallResult.exn "timeout"⟩] :
          List (Orchestrator.TaskSpec Orchestrator.StructuredResponse))
        Orchestrator.wrapStructured
        (Orchestrator.initState
          ([⟨"Alice", "workA", Orchestrator.CallResult.exn "timeout"⟩,
            ⟨"Bob", "workB", Orchestrator.CallResult.exn "timeout"⟩] :
            List (Orchestrator.TaskSpec Orchestrator.StructuredResponse)) 5)
        [Orchestrator.StepLabel.start 0, Orchestrator.StepLabel.finish 0,
         Orchestrator.StepLabel.start 1, Orchestrator.StepLabel.finish 1] =
      some ⟨[Orchestrator.TaskPhase.done (Orchestrator.StructuredOutcome.exn "timeout"),
             Orchestrator.TaskPhase.done (Orchestrator.StructuredOutcome.exn "timeout")],
            5, 2, [⟨1, 2, "Alice"⟩, ⟨2, 2, "Bob"⟩]⟩ ∧
    Orchestrator.structuredOutcomeName (Orchestrator.StructuredOutcome.exn "timeout") =
      none ∧
    "Alice" ≠ "Bob" :=
  ⟨by decide, rfl, by decide⟩

/-- C2 amended: in free-form mode every outcome — success or failure — is
tagged with the owning student name, and a completed N-student run returns
the N input names in submission order; in structured mode only success
outcomes are tagged (the i-th success carries the i-th student's name),
while failure outcomes are bare exception values carrying no student
name. -/
theorem outcome_tagging_by_mode :
    (∀ (specs : List (Orchestrator.TaskSpec String)) (maxc : Nat)
       (labels : List Orchestrator.StepLabel)
       (s : Orchestrator.OrchState (String × Orchestrator.FreeContent)),
      Orchestrator.runSteps specs Orchestrator.wrapFree
          (Orchestrator.initState specs maxc) labels = some s →
      Orchestrator.isTerminal s = true → 1 ≤ maxc →
      (Orchestrator.gatherResults s).map Prod.fst =
        specs.map Orchestrator.TaskSpec.student_name) ∧
    (∀ (specs : List (Orchestrator.TaskSpec Orchestrator.StructuredResponse))
       (maxc : Nat) (labels : List Orchestrator.StepLabel)
       (s : Orchestrator.OrchState Orchestrator.StructuredOutcome),
      Orchestrator.runSteps specs Orchestrator.wrapStructured
          (Orchestrator.initState specs maxc) labels = some s →
      Orchestrator.isTerminal s = true → 1 ≤ maxc →
      ∀ (i : Nat) (r : Orchestrator.EvaluationResult),
        (Orchestrator.gatherResults s)[i]? =
          some (Orchestrator.StructuredOutcome.result r) →
        ∃ sp, specs[i]? = some sp ∧ r.student_name = sp.student_name) := by
  constructor
  · intro specs maxc labels s hrun hterm hmax
    rw [Orchestrator.gatherResults_eq_of_tasks_map specs _
      (Orchestrator.run_terminal_tasks hrun hterm hmax),
      Orchestrator.map_fst_map_wrapFree]
  · intro specs maxc labels s hrun hterm hmax i r hr
    rw [Orchestrator.gatherResults_eq_of_tasks_map specs _
      (Orchestrator.run_terminal_tasks hrun hterm hmax), List.getElem?_map] at hr
    cases hsp : specs[i]? with
    | none => rw [hsp] at hr; exact absurd hr (by simp)
    | some sp =>
      rw [hsp] at hr
      simp only [Option.map_some', Option.some.injEq] at hr
      cases hc : sp.call with
      | ok p =>
        rw [hc] at hr
        simp only [Orchestrator.wrapStructured, Orchestrator.StructuredOutcome.result.injEq]
          at hr
        exact ⟨sp, rfl, by rw [← hr]⟩
      | exn m =>
        rw [hc] at hr
        simp [Orchestrator.wrapStructured] at hr

/-- Concrete runs of `outcome_tagging_by_mode`: a free-format failure is
still tagged with its student, and a structured success carries the
student's name. -/
theorem outcome_tagging_by_mode_witness :
    (Orchestrator.gatherResults
      (⟨[Orchestrator.TaskPhase.done ("Solo", Orchestrator.FreeContent.exn "x")],
        1, 1, [⟨1, 1, "Solo"⟩]⟩ :
        Orchestrator.OrchState (String × Orchestrator.FreeContent))).map Prod.fst =
      ["Solo"] ∧
    Orchestrator.structuredOutcomeName
      (Orchestrator.StructuredOutcome.result ⟨"Carla", "fb", [], 1, 2⟩) =
      some "Carla" := by
  constructor
  · exact outcome_tagging_by_mode.1
      [⟨"Solo", "w", Orchestrator.CallResult.exn "x"⟩] 1
      [Orchestrator.StepLabel.start 0, Orchestrator.StepLabel.finish 0] _
      (by decide) (by decide) (by decide)
  · obtain ⟨sp, hsp, hname⟩ := outcome_tagging_by_mode.2
      [⟨"Carla", "w", Orchestrator.CallResult.ok ⟨"fb", [], 1, 2⟩⟩] 1
      [Orchestrator.StepLabel.start 0, Orchestrator.StepLabel.finish 0]
      ⟨[Orchestrator.TaskPhase.done
          (Orchestrator.StructuredOutcome.result ⟨"Carla", "fb", [], 1, 2⟩)],
        1, 1, [⟨1, 1, "Carla"⟩]⟩
      (by decide) (by decide) (by decide) 0 ⟨"Carla", "fb", [], 1, 2⟩ (by decide)
    simp only [List.getElem?_cons_zero, Option.some.injEq] at hsp
    rw [Orchestrator.structuredOutcomeName, hname, ← hsp]

/-!
Part 5 embeds the archive-extraction error path.  `zipfile.ZipFile` raises
`zipfile.BadZipFile` — the spec's `ArchiveFormatError` — on bytes that are
not a valid zip container; the exception propagates out of
`extract_student_submissions` uncaught and aborts the run.  The caller in
`main.py` rejects an empty extraction result with a user-facing message and
stops before any evaluation call.  The zip container format itself is
parsed by the standard library, an external collaborator modeled as an
abstract parse outcome (`none` = invalid container bytes). -/

namespace Driver

/-- Outcome of the driver's extraction phase in `main.py`. -/
inductive ExtractionPhase (β : Type) where
  | archiveFormatError
  | rejectedEmpty (message : String)
  | proceed (subs : List (String × List (String × β)))
  deriving DecidableEq

/-- `extract_student_submissions` with its fallible opening of the zip
container: invalid container bytes raise the archive-format error
(`zipfile.BadZipFile`); a valid container is processed entry by entry. -/
def extract_student_submissions_checked (parsed : Option (List (ZipHandler.ZipEntry β))) :
    Except String (List (String × List (String × β))) :=
  match parsed with
  | none => Except.error "BadZipFile"
  | some entries => Except.ok (ZipHandler.extract_student_submissions entries)

/-- The extraction phase of `main.py`: the archive-format error aborts the
run; an empty mapping is rejected with the user-facing message and stops;
only a nonempty mapping proceeds toward evaluation. -/
def mainExtractionPhase (parsed : Option (List (ZipHandler.ZipEntry β))) :
    ExtractionPhase β :=
  match extract_student_submissions_checked parsed with
  | Except.error _ => ExtractionPhase.archiveFormatError
  | Except.ok subs =>
    if subs.isEmpty then
      ExtractionPhase.rejectedEmpty "Aucun travail d'étudiant trouvé dans le ZIP."
    else ExtractionPhase.proceed subs

end Driver

/-- C8: bytes that are not a valid archive container make extraction fail
with the archive-format error (`zipfile.BadZipFile`, the spec's
`ArchiveFormatError`), which is fatal to the run; a valid archive yielding
zero students is not an error at this layer — extraction returns an empty
mapping and the caller rejects it with a user-facing message, and only a
nonempty mapping ever proceeds to evaluation. -/
theorem archive_error_vs_empty_extraction :
    (∀ β : Type,
      Driver.extract_student_submissions_checked (β := β) none =
        Except.error "BadZipFile" ∧
      Driver.mainExtractionPhase (β := β) none =
        Driver.ExtractionPhase.archiveFormatError) ∧
    (∀ (β : Type) (entries : List (ZipHandler.ZipEntry β)),
      ZipHandler.extract_student_submissions entries = [] →
      Driver.extract_student_submissions_checked (some entries) = Except.ok [] ∧
      Driver.mainExtractionPhase (some entries) =
        Driver.ExtractionPhase.rejectedEmpty
          "Aucun travail d'étudiant trouvé dans le ZIP.") ∧
    (∀ (β : Type) (parsed : Option (List (ZipHandler.ZipEntry β)))
       (subs : List (String × List (String × β))),
      Driver.mainExtractionPhase parsed = Driver.ExtractionPhase.proceed subs →
      subs ≠ []) := by
  refine ⟨fun β => ⟨rfl, rfl⟩, ?_, ?_⟩
  · intro β entries h
    constructor
    · simp [Driver.extract_student_submissions_checked, h]
    · simp [Driver.mainExtractionPhase, Driver.extract_student_submissions_checked, h]
  · intro β parsed subs h
    cases parsed with
    | none => simp [Driver.mainExtractionPhase, Driver.extract_student_submissions_checked] at h
    | some entries =>
      simp only [Driver.mainExtractionPhase, Driver.extract_student_submissions_checked] at h
      cases h0 : (ZipHandler.extract_student_submissions entries).isEmpty with
      | true => rw [h0] at h; simp at h
      | false =>
        rw [h0] at h
        simp only [Bool.false_eq_true, if_false, Driver.ExtractionPhase.proceed.injEq] at h
        subst h
        intro hnil
        rw [hnil] at h0
        simp at h0

/-- Concrete runs of `archive_error_vs_empty_extraction`: an archive holding
only a root-level file extracts to zero students and is rejected with the
user-facing message, while invalid container bytes abort with the
archive-format error. -/
theorem archive_error_vs_empty_extraction_witness :
    Driver.mainExtractionPhase (some [⟨"readme.txt", (0 : Nat)⟩]) =
      Driver.ExtractionPhase.rejectedEmpty
        "Aucun travail d'étudiant trouvé dans le ZIP." ∧
    Driver.mainExtractionPhase (none : Option (List (ZipHandler.ZipEntry Nat))) =
      Driver.ExtractionPhase.archiveFormatError :=
  ⟨(archive_error_vs_empty_extraction.2.1 Nat [⟨"readme.txt", 0⟩] (by decide)).2,
   (archive_error_vs_empty_extraction.1 Nat).2⟩

/-!
Concrete evaluations of the embedded definitions, checking the model
against hand-computed runs of the source. -/

section ConcreteEvaluations

open ZipHandler

example : extract_student_name_from_moodle_folder "Jane Doe_998877_assignsubmission_file" =
    some "Jane Doe" := by decide

example : extract_student_name_from_moodle_folder "Assignment1" = none := by decide

example : extract_student_submissions [⟨"Alice/report.pdf", 0⟩] =
    [("Alice", [("report.pdf", 0)])] := by decide

example : extract_student_submissions
    [⟨"Assignment1/Jane Doe_998877_assignsubmission_file/essay.docx", 0⟩] =
    [("Jane Doe", [("essay.docx", 0)])] := by decide

example : extract_student_submissions [⟨"__MACOSX/._essay.docx", 0⟩, ⟨"readme.txt", 1⟩] =
    ([] : List (String × List (String × Nat))) := by decide

example : pathSuffix "REPORT.PDF" = ".PDF" := by decide
example : pathSuffix "archive.tar.gz" = ".gz" := by decide
example : pathSuffix ".hidden" = "" := by decide
example : pathSuffix "name." = "" := by decide
example : pathSuffix "dir/essay.TXT" = ".TXT" := by decide
example : strLower ".PDF" = ".pdf" := by decide
example : utf8DecodeReplace [72, 105] = "Hi" := by decide
example : utf8DecodeReplace [0xC3, 0xA9] = "é" := by decide
example : utf8DecodeReplace [0xFF] = String.mk [replacementChar] := by decide
example : parse_document trivialParsers "essay.TXT" [72] = some "H" := by decide

end ConcreteEvaluations
